import Mathlib

/-!
Verification of the replay-memory subsystem and agent update control flow of
the tensorforce repository, as a shallow embedding in Lean 4.

The embedding mirrors:
* `tensorforce/core/memories/replay.py` (class `Replay`): a numpy circular
  buffer with `add_observation`, `get_batch` and `set_memory`.
* `tensorforce/core/memories/prioritized_replay.py` (class
  `PrioritizedReplay`): TensorFlow graph functions `tf_store`,
  `tf_retrieve_timesteps`, `tf_retrieve_indices`, `tf_update_batch`.
* `tensorforce/agents/batch_agent.py` (`BatchAgent.observe`,
  `BatchAgent.reset_batch`).
* `tensorforce/agents/memory_agent.py` (`MemoryAgent.add_observation`).

Modelling conventions:
* numpy / TF arrays become Lean `List`s; parallel named arrays (python dicts
  keyed by state/action names) become association lists `List (String × _)`
  or are indexed by a lookup function `String → _`.
* Scalar payload values (states, actions, rewards, internal states) are
  modelled as `ℤ`; none of the verified code computes with them, it only
  stores and retrieves them.  Priorities, uniform samples and losses are
  modelled as `ℚ` because `tf_retrieve_timesteps` divides by their sum.
* Randomness (`randrange`, `np.random.randint`, `tf.random_uniform`) is
  passed in as an explicit parameter constrained by the generator's contract.
* A `tf.while_loop` becomes a fuel-indexed loop: the loop guard is checked
  before every step exactly as TensorFlow does.
-/

namespace Tensorforce

/-! ## `Replay` (tensorforce/core/memories/replay.py) -/

namespace Replay

/-- One observation passed to `Replay.add_observation`: the python call
`add_observation(state, action, reward, terminal, internal)` where `state`
and `action` are dicts keyed by name and `internal` is a list. -/
structure Obs where
  state : String → ℤ
  action : String → ℤ
  reward : ℤ
  terminal : Bool
  internal : List ℤ

instance : Inhabited Obs := ⟨⟨fun _ => 0, fun _ => 0, 0, false, []⟩⟩

/-- The fields of a `Replay` instance set up by `Replay.__init__`:
per-name capacity-sized arrays, `size`, `index` and the sampling mode. -/
structure State where
  capacity : ℕ
  states : List (String × List ℤ)
  actions : List (String × List ℤ)
  rewards : List ℤ
  terminals : List Bool
  internals : Option (List (List ℤ))
  size : ℕ
  index : ℕ
  random_sampling : Bool

/-- `Replay.__init__(capacity, states_config, actions_config, random_sampling)`:
zero-filled arrays of length `capacity`, `internals = None`, `size = 0`,
`index = 0`. -/
def initState (capacity : ℕ) (stateNames actionNames : List String)
    (random_sampling : Bool) : State where
  capacity := capacity
  states := stateNames.map (fun n => (n, List.replicate capacity 0))
  actions := actionNames.map (fun n => (n, List.replicate capacity 0))
  rewards := List.replicate capacity 0
  terminals := List.replicate capacity false
  internals := none
  size := 0
  index := 0
  random_sampling := random_sampling

/-- `Replay.add_observation`: write every incoming field at position
`index`, allocate the internals arrays on first use, then grow `size`
up to `capacity` and advance `index` by one modulo `capacity`. -/
def add_observation (r : State) (o : Obs) : State :=
  let internals0 := match r.internals with
    | none => o.internal.map (fun _ => List.replicate r.capacity (0 : ℤ))
    | some l => l
  { r with
    states := r.states.map (fun p => (p.1, p.2.set r.index (o.state p.1)))
    actions := r.actions.map (fun p => (p.1, p.2.set r.index (o.action p.1)))
    rewards := r.rewards.set r.index o.reward
    terminals := r.terminals.set r.index o.terminal
    internals := some (List.zipWith (fun arr v => arr.set r.index v) internals0 o.internal)
    size := if r.size < r.capacity then r.size + 1 else r.size
    index := (r.index + 1) % r.capacity }

/-- Folding a sequence of `add_observation` calls over a state. -/
def run (r : State) (ops : List Obs) : State :=
  ops.foldl add_observation r

theorem run_append (r : State) (ops : List Obs) (o : Obs) :
    run r (ops ++ [o]) = add_observation (run r ops) o := by
  simp [run, List.foldl_append]

theorem capacity_run : ∀ (ops : List Obs) (r : State),
    (run r ops).capacity = r.capacity
  | [], _ => rfl
  | o :: ops, r => by
    show (run (add_observation r o) ops).capacity = r.capacity
    rw [capacity_run ops]
    rfl

theorem rewards_length_run : ∀ (ops : List Obs) (r : State),
    (run r ops).rewards.length = r.rewards.length
  | [], _ => rfl
  | o :: ops, r => by
    show (run (add_observation r o) ops).rewards.length = r.rewards.length
    rw [rewards_length_run ops]
    simp [add_observation]

theorem index_size_run (C : ℕ) (stateNames actionNames : List String) (rs : Bool)
    (hC : 0 < C) (ops : List Obs) :
    (run (initState C stateNames actionNames rs) ops).index = ops.length % C ∧
    (run (initState C stateNames actionNames rs) ops).size = min ops.length C := by
  induction ops using List.reverseRecOn with
  | nil => simp [run, initState]
  | append_singleton ops o ih =>
    obtain ⟨hidx, hsize⟩ := ih
    rw [run_append]
    have hcap : (run (initState C stateNames actionNames rs) ops).capacity = C := by
      rw [capacity_run]
      rfl
    constructor
    · simp only [add_observation, hidx, hcap, List.length_append, List.length_singleton]
      exact Nat.mod_add_mod ops.length C 1
    · simp only [add_observation, hidx, hsize, hcap, List.length_append,
        List.length_singleton]
      split <;> omega

theorem rewards_run (C : ℕ) (stateNames actionNames : List String) (rs : Bool)
    (hC : 0 < C) (ops : List Obs) (s : ℕ) (hs : s < ops.length)
    (hlast : ∀ s', s < s' → s' < ops.length → s' % C ≠ s % C) :
    (run (initState C stateNames actionNames rs) ops).rewards[s % C]? =
      some ((ops.getD s default).reward) := by
  induction ops using List.reverseRecOn with
  | nil => exact absurd hs (by simp)
  | append_singleton ops o ih =>
    rw [run_append]
    have hidx := (index_size_run C stateNames actionNames rs hC ops).1
    have hlen : (run (initState C stateNames actionNames rs) ops).rewards.length = C := by
      rw [rewards_length_run]
      simp [initState]
    rcases Nat.lt_or_ge s ops.length with hlt | hge
    · have hne : ops.length % C ≠ s % C :=
        hlast ops.length hlt (by simp)
      have step : (add_observation (run (initState C stateNames actionNames rs) ops) o).rewards[s % C]?
          = (run (initState C stateNames actionNames rs) ops).rewards[s % C]? := by
        simp only [add_observation]
        rw [hidx]
        exact List.getElem?_set_ne hne
      rw [step, ih hlt (fun s' h1 h2 => hlast s' h1 (by simp; omega))]
      congr 1
      have : s < ops.length := hlt
      simp [List.getD, List.getElem?_append, this]
    · have hseq : s = ops.length := by
        have : s < ops.length + 1 := by simpa using hs
        omega
      subst hseq
      have step : (add_observation (run (initState C stateNames actionNames rs) ops) o).rewards[ops.length % C]?
          = some o.reward := by
        simp only [add_observation]
        rw [hidx]
        have hl : ops.length % C < (run (initState C stateNames actionNames rs) ops).rewards.length := by
          rw [hlen]
          exact Nat.mod_lt _ hC
        simp [List.getElem?_set_self, hl]
      rw [step]
      congr 1
      simp [List.getD, List.getElem?_concat_length]

/-- C1: for every sequence of `Replay.add_observation` calls on a `Replay`
memory of capacity `C > 0`, the invariant `size ≤ C` and `index < C` holds,
`size = min (number of calls) C` (it grows by one per call until it reaches
`C` and never exceeds it), `index` advances by exactly one modulo `C` on each
call, and once `C` or more observations were added (so `size = C`), the slot
that the next call overwrites holds the oldest stored observation, namely the
one added `C` calls ago. -/
theorem replay_add_observation_invariant
    (C : ℕ) (hC : 0 < C) (stateNames actionNames : List String) (rs : Bool)
    (ops : List Obs) :
    (run (initState C stateNames actionNames rs) ops).size = min ops.length C ∧
    (run (initState C stateNames actionNames rs) ops).size ≤ C ∧
    (run (initState C stateNames actionNames rs) ops).index = ops.length % C ∧
    (run (initState C stateNames actionNames rs) ops).index < C ∧
    (∀ o : Obs,
      (add_observation (run (initState C stateNames actionNames rs) ops) o).index =
        ((run (initState C stateNames actionNames rs) ops).index + 1) % C) ∧
    (C ≤ ops.length →
      (run (initState C stateNames actionNames rs) ops).rewards[(run (initState C stateNames actionNames rs) ops).index]?
        = some ((ops.getD (ops.length - C) default).reward)) := by
  obtain ⟨hidx, hsize⟩ := index_size_run C stateNames actionNames rs hC ops
  have hcap : (run (initState C stateNames actionNames rs) ops).capacity = C := by
    rw [capacity_run]
    rfl
  refine ⟨hsize, ?_, hidx, ?_, ?_, ?_⟩
  · rw [hsize]; omega
  · rw [hidx]; exact Nat.mod_lt _ hC
  · intro o
    simp only [add_observation, hcap]
  · intro hge
    have hmod : (ops.length - C) % C = ops.length % C := by
      conv_rhs => rw [show ops.length = (ops.length - C) + C by omega]
      rw [Nat.add_mod_right]
    rw [hidx, ← hmod]
    apply rewards_run C stateNames actionNames rs hC ops (ops.length - C) (by omega)
    intro s' h1 h2 heq
    have hdvd : C ∣ s' - (ops.length - C) :=
      (Nat.modEq_iff_dvd' (by omega)).mp heq.symm
    have := Nat.le_of_dvd (by omega) hdvd
    omega

/-- Witness for C1 at `C = 2` with three observations: the index has advanced
to `3 % 2` and the size is capped at `min 3 2 = 2`. -/
theorem replay_add_observation_invariant_witness :
    (run (initState 2 ["s"] ["a"] false) (List.replicate 3 default)).index = 3 % 2 ∧
    (run (initState 2 ["s"] ["a"] false) (List.replicate 3 default)).size = min 3 2 := by
  have h := replay_add_observation_invariant 2 (by decide) ["s"] ["a"] false
    (List.replicate 3 default)
  exact ⟨by simpa using h.2.2.1, by simpa using h.1⟩

/-- `Replay._sample_sequential_indices`: python computes
`end = (index - randrange(size - batch_size + 1)) % capacity`,
`start = (end - batch_size) % capacity`, then returns `range(start, end)` if
`start < end` and the wrapped `range(start, capacity) + range(0, end)`
otherwise.  The `randrange` draw is the parameter `k`. -/
def sampleSequentialIndices (r : State) (batch_size k : ℕ) : List ℕ :=
  let e := (((r.index : ℤ) - (k : ℤ)) % (r.capacity : ℤ)).toNat
  let s := (((e : ℤ) - (batch_size : ℤ)) % (r.capacity : ℤ)).toNat
  if s < e then List.range' s (e - s)
  else List.range' s (r.capacity - s) ++ List.range e

/-- The guard of the resampling loop in `Replay.get_batch`:
`not np.any(self.terminals.take(indices)[:-1])`. -/
def seqOk (r : State) (idxs : List ℕ) : Bool :=
  !(idxs.dropLast.any (fun i => r.terminals.getD i false))

/-- The sequential branch of `Replay.get_batch`: sample indices from the
first `randrange` draw and keep resampling with the next draws while an
intermediate terminal is contained; `none` models exhausting the supplied
draws (the python loop would still be running). -/
def seqSample (r : State) (batch_size : ℕ) : List ℕ → Option (List ℕ)
  | [] => none
  | k :: ks =>
    let idxs := sampleSequentialIndices r batch_size k
    if seqOk r idxs then some idxs else seqSample r batch_size ks

/-- numpy `arr[:len(src)] = src`: overwrite the front of `arr` with `src`,
keep the rest. -/
def setFront {α : Type} (arr src : List α) : List α :=
  src ++ arr.drop src.length

/-- `Replay.set_memory`: assign the arrays wholesale when the data length
matches `capacity`, otherwise assign only the front of each array; `size`
becomes `len(rewards)` either way. -/
def set_memory (r : State) (statesIn actionsIn : String → List ℤ)
    (rewardsIn : List ℤ) (terminalsIn : List Bool)
    (internalsIn : List (List ℤ)) : State :=
  if rewardsIn.length = r.capacity then
    { r with
      states := r.states.map (fun p => (p.1, statesIn p.1))
      actions := r.actions.map (fun p => (p.1, actionsIn p.1))
      rewards := rewardsIn
      terminals := terminalsIn
      internals := some internalsIn
      size := rewardsIn.length }
  else
    let internals0 := match r.internals with
      | none => internalsIn.map (fun _ => List.replicate r.capacity (0 : ℤ))
      | some l => l
    { r with
      size := rewardsIn.length
      states := r.states.map (fun p => (p.1, setFront p.2 (statesIn p.1)))
      actions := r.actions.map (fun p => (p.1, setFront p.2 (actionsIn p.1)))
      rewards := setFront r.rewards rewardsIn
      terminals := setFront r.terminals terminalsIn
      internals := some (List.zipWith setFront internals0 internalsIn) }

theorem setFront_lt {α : Type} (arr src : List α) {j : ℕ} (h : j < src.length) :
    (setFront arr src)[j]? = src[j]? := by
  rw [setFront, List.getElem?_append]
  simp [h]

theorem setFront_ge {α : Type} (arr src : List α) {j : ℕ} (h : src.length ≤ j) :
    (setFront arr src)[j]? = arr[j]? := by
  rw [setFront, List.getElem?_append]
  rw [if_neg (by omega)]
  rw [List.getElem?_drop]
  congr 1
  omega

theorem emod_toNat_lt (a : ℤ) {C : ℕ} (hC : 0 < C) : (a % (C : ℤ)).toNat < C := by
  have h1 : a % (C : ℤ) < C := Int.emod_lt_of_pos a (by exact_mod_cast hC)
  have h2 : 0 ≤ a % (C : ℤ) := Int.emod_nonneg a (by positivity)
  omega

/-- C5 (amended with `1 ≤ batch_size`): on any `Replay` state reached by a
sequence of `add_observation` calls, every index produced for a
`get_batch` call with `1 ≤ batch_size ≤ size` lies in the valid region of
the circular buffer — below `capacity` always, and below `size` while the
buffer is not yet full.  The first conjunct covers random sampling (a
`np.random.randint(size)` draw `d < size`), the second covers every
`randrange(size - batch_size + 1)` draw `k` of sequential sampling. -/
theorem replay_get_batch_valid_region
    (C : ℕ) (hC : 0 < C) (stateNames actionNames : List String) (rs : Bool)
    (ops : List Obs) (r : State)
    (hr : r = run (initState C stateNames actionNames rs) ops)
    (batch_size : ℕ) (hbs1 : 1 ≤ batch_size) (hbs2 : batch_size ≤ r.size) :
    (∀ d : ℕ, d < r.size → d < r.capacity ∧ (r.size < r.capacity → d < r.size)) ∧
    (∀ k : ℕ, k ≤ r.size - batch_size →
      ∀ i ∈ sampleSequentialIndices r batch_size k,
        i < r.capacity ∧ (r.size < r.capacity → i < r.size)) := by
  have hcap : r.capacity = C := by rw [hr, capacity_run]; rfl
  obtain ⟨hidx0, hsize0⟩ := index_size_run C stateNames actionNames rs hC ops
  have hidx : r.index = ops.length % C := by rw [hr]; exact hidx0
  have hsize : r.size = min ops.length C := by rw [hr]; exact hsize0
  constructor
  · intro d hd
    refine ⟨?_, fun _ => hd⟩
    rw [hcap]
    omega
  · intro k hk i hi
    simp only [sampleSequentialIndices, hcap, hidx] at hi
    rcases Nat.lt_or_ge ops.length C with hlt | hge
    · -- buffer not yet full: size = len(ops) = index
      have hL : ops.length % C = ops.length := Nat.mod_eq_of_lt hlt
      have hsz : r.size = ops.length := by rw [hsize]; omega
      rw [hL] at hi
      have hkL : k + batch_size ≤ ops.length := by
        rw [hsz] at hbs2 hk
        omega
      have hcast : ((ops.length : ℤ) - (k : ℤ)) = ((ops.length - k : ℕ) : ℤ) := by omega
      have hm1 : ((ops.length : ℤ) - (k : ℤ)) % (C : ℤ) = ((ops.length - k : ℕ) : ℤ) := by
        rw [hcast]
        exact Int.emod_eq_of_lt (by omega) (by omega)
      rw [hm1] at hi
      simp only [Int.toNat_natCast] at hi
      have hcast2 : ((ops.length - k : ℕ) : ℤ) - (batch_size : ℤ)
          = ((ops.length - k - batch_size : ℕ) : ℤ) := by omega
      have hm2 : (((ops.length - k : ℕ) : ℤ) - (batch_size : ℤ)) % (C : ℤ)
          = ((ops.length - k - batch_size : ℕ) : ℤ) := by
        rw [hcast2]
        exact Int.emod_eq_of_lt (by omega) (by omega)
      rw [hm2] at hi
      simp only [Int.toNat_natCast] at hi
      rw [if_pos (by omega)] at hi
      rw [List.mem_range'_1] at hi
      refine ⟨by rw [hcap]; omega, fun _ => by rw [hsz]; omega⟩
    · -- buffer full: size = capacity, every index below capacity is valid
      have hsz : r.size = C := by rw [hsize]; omega
      have hfull : ¬ r.size < r.capacity := by rw [hsz, hcap]; omega
      have heC : ((((ops.length % C : ℕ) : ℤ) - (k : ℤ)) % (C : ℤ)).toNat < C :=
        emod_toNat_lt _ hC
      have hsC : ((((((((ops.length % C : ℕ) : ℤ) - (k : ℤ)) % (C : ℤ)).toNat : ℤ)
          - (batch_size : ℤ)) % (C : ℤ)).toNat) < C :=
        emod_toNat_lt _ hC
      have hiC : i < C := by
        split at hi
        · rw [List.mem_range'_1] at hi
          omega
        · rw [List.mem_append, List.mem_range'_1, List.mem_range] at hi
          omega
      exact ⟨by rw [hcap]; exact hiC, fun h => absurd h hfull⟩

/-- Counterexample to C5 as frozen: with `batch_size = 0 ≤ size` on a
partially filled buffer (capacity 4, two stored transitions), the
sequential branch takes the wrap-around path and returns every buffer
slot, including index 3 which holds no stored transition
(`size = 2 < capacity`). -/
theorem replay_get_batch_valid_region_cex :
    (run (initState 4 ["s"] ["a"] false) (List.replicate 2 default)).size = 2 ∧
    (run (initState 4 ["s"] ["a"] false) (List.replicate 2 default)).size <
      (run (initState 4 ["s"] ["a"] false) (List.replicate 2 default)).capacity ∧
    3 ∈ sampleSequentialIndices
      (run (initState 4 ["s"] ["a"] false) (List.replicate 2 default)) 0 0 ∧
    ¬ 3 < (run (initState 4 ["s"] ["a"] false) (List.replicate 2 default)).size := by
  refine ⟨?_, ?_, ?_, ?_⟩ <;> decide

/-- Witness for C5 on a concrete full buffer: capacity 2, two stored
transitions, `batch_size = 1`, sequential draw `k = 0` produces index 1,
which is below the capacity. -/
theorem replay_get_batch_valid_region_witness :
    1 < (run (initState 2 ["s"] ["a"] false) (List.replicate 2 default)).capacity :=
  ((replay_get_batch_valid_region 2 (by decide) ["s"] ["a"] false
    (List.replicate 2 default) _ rfl 1 (by decide) (by decide)).2 0 (by decide)
    1 (by decide)).1

/-- C8: whenever the sequential branch of `Replay.get_batch` returns a
batch, every returned entry except possibly the last has a `False` terminal
flag: the resampling loop only stops when
`np.any(terminals.take(indices)[:-1])` is false. -/
theorem replay_seq_batch_no_interior_terminal
    (r : State) (batch_size : ℕ) (draws : List ℕ) (idxs : List ℕ)
    (h : seqSample r batch_size draws = some idxs) :
    ∀ i ∈ idxs.dropLast, r.terminals.getD i false = false := by
  induction draws with
  | nil => exact absurd h (by simp [seqSample])
  | cons k ks ih =>
    rw [seqSample] at h
    by_cases hok : seqOk r (sampleSequentialIndices r batch_size k)
    · rw [if_pos hok] at h
      cases h
      intro i hi
      have hany : (sampleSequentialIndices r batch_size k).dropLast.any
          (fun i => r.terminals.getD i false) = false := by
        simpa [seqOk] using hok
      rw [List.any_eq_false] at hany
      simpa using hany i hi
    · rw [if_neg hok] at h
      exact ih h

/-- A concrete `Replay` state for exercising the sequential sampler:
capacity 3, full, one terminal flag set at the last slot. -/
def seqDemoState : State :=
  { capacity := 3, states := [], actions := [], rewards := [0, 0, 0],
    terminals := [false, false, true], internals := some [], size := 3,
    index := 0, random_sampling := false }

/-- Witness for C8: on `seqDemoState` with `batch_size = 2` the first draw
`k = 0` yields indices `[1, 2]`, which are accepted, and the interior
entry (index 1) is indeed non-terminal. -/
theorem replay_seq_batch_no_interior_terminal_witness :
    seqDemoState.terminals.getD 1 false = false :=
  replay_seq_batch_no_interior_terminal seqDemoState 2 [0] [1, 2] (by decide)
    1 (by decide)

/-- C9: a partial `Replay.set_memory` call (data length different from
`capacity`) overwrites only the front `len(...)` entries of each rewards,
terminals, states, actions and internals array, leaves every entry beyond
that front unchanged, and sets `size` to `len(rewards)`. -/
theorem replay_set_memory_frame
    (r : State) (statesIn actionsIn : String → List ℤ)
    (rewardsIn : List ℤ) (terminalsIn : List Bool)
    (internalsIn iarrs : List (List ℤ))
    (hne : rewardsIn.length ≠ r.capacity) (hint : r.internals = some iarrs) :
    (set_memory r statesIn actionsIn rewardsIn terminalsIn internalsIn).size
      = rewardsIn.length ∧
    (∀ j, j < rewardsIn.length →
      (set_memory r statesIn actionsIn rewardsIn terminalsIn internalsIn).rewards[j]?
        = rewardsIn[j]?) ∧
    (∀ j, rewardsIn.length ≤ j →
      (set_memory r statesIn actionsIn rewardsIn terminalsIn internalsIn).rewards[j]?
        = r.rewards[j]?) ∧
    (∀ j, j < terminalsIn.length →
      (set_memory r statesIn actionsIn rewardsIn terminalsIn internalsIn).terminals[j]?
        = terminalsIn[j]?) ∧
    (∀ j, terminalsIn.length ≤ j →
      (set_memory r statesIn actionsIn rewardsIn terminalsIn internalsIn).terminals[j]?
        = r.terminals[j]?) ∧
    (∀ (i : ℕ) (p : String × List ℤ), r.states[i]? = some p →
      (set_memory r statesIn actionsIn rewardsIn terminalsIn internalsIn).states[i]?
          = some (p.1, setFront p.2 (statesIn p.1)) ∧
      (∀ j, j < (statesIn p.1).length →
        (setFront p.2 (statesIn p.1))[j]? = (statesIn p.1)[j]?) ∧
      (∀ j, (statesIn p.1).length ≤ j →
        (setFront p.2 (statesIn p.1))[j]? = p.2[j]?)) ∧
    (∀ (i : ℕ) (p : String × List ℤ), r.actions[i]? = some p →
      (set_memory r statesIn actionsIn rewardsIn terminalsIn internalsIn).actions[i]?
          = some (p.1, setFront p.2 (actionsIn p.1)) ∧
      (∀ j, j < (actionsIn p.1).length →
        (setFront p.2 (actionsIn p.1))[j]? = (actionsIn p.1)[j]?) ∧
      (∀ j, (actionsIn p.1).length ≤ j →
        (setFront p.2 (actionsIn p.1))[j]? = p.2[j]?)) ∧
    (∀ (n : ℕ) (arr v : List ℤ), iarrs[n]? = some arr → internalsIn[n]? = some v →
      ((set_memory r statesIn actionsIn rewardsIn terminalsIn internalsIn).internals.getD [])[n]?
          = some (setFront arr v) ∧
      (∀ j, j < v.length → (setFront arr v)[j]? = v[j]?) ∧
      (∀ j, v.length ≤ j → (setFront arr v)[j]? = arr[j]?)) := by
  simp only [set_memory, if_neg hne, hint]
  refine ⟨trivial, ?_, ?_, ?_, ?_, ?_, ?_, ?_⟩
  · intro j hj
    exact setFront_lt _ _ hj
  · intro j hj
    exact setFront_ge _ _ hj
  · intro j hj
    exact setFront_lt _ _ hj
  · intro j hj
    exact setFront_ge _ _ hj
  · intro i p hp
    simp only [List.getElem?_map, hp, Option.map_some']
    exact ⟨by simp, fun j hj => setFront_lt _ _ hj, fun j hj => setFront_ge _ _ hj⟩
  · intro i p hp
    simp only [List.getElem?_map, hp, Option.map_some']
    exact ⟨by simp, fun j hj => setFront_lt _ _ hj, fun j hj => setFront_ge _ _ hj⟩
  · intro n arr v harr hv
    refine ⟨?_, fun j hj => setFront_lt _ _ hj, fun j hj => setFront_ge _ _ hj⟩
    simp only [Option.getD_some]
    rw [List.getElem?_zipWith, harr, hv]

/-- A concrete partially filled `Replay` state for the frame witness. -/
def frameDemoState : State :=
  { capacity := 2, states := [("s", [10, 20])], actions := [("a", [30, 40])],
    rewards := [1, 2], terminals := [false, true], internals := some [[5, 6]],
    size := 2, index := 0, random_sampling := false }

/-- Witness for C9 on `frameDemoState` with one-element inputs: the size is
set to 1 and the rewards entry beyond the overwritten front is untouched. -/
theorem replay_set_memory_frame_witness :
    (set_memory frameDemoState (fun _ => [7]) (fun _ => [8]) [9] [true] [[4]]).size = 1 ∧
    (set_memory frameDemoState (fun _ => [7]) (fun _ => [8]) [9] [true] [[4]]).rewards[1]?
      = frameDemoState.rewards[1]? := by
  have h := replay_set_memory_frame frameDemoState (fun _ => [7]) (fun _ => [8])
    [9] [true] [[4]] [[5, 6]] (by decide) rfl
  exact ⟨h.1, h.2.2.1 1 (by decide)⟩

end Replay

/-! ## `BatchAgent` (tensorforce/agents/batch_agent.py) -/

namespace BatchAgent

/-- The `current_*` values appended by `BatchAgent.observe`: the latest
state, internal values, action, terminal flag and reward. -/
structure Obs where
  state : String → ℤ
  internal : List ℤ
  action : String → ℤ
  terminal : Bool
  reward : ℤ

/-- The batch bookkeeping fields of a `BatchAgent`: per-name lists of
collected states/actions, lists of internals, terminals, rewards, and the
current `batch_count`.  `batch_count` is `None` only transiently inside
`__init__` (before the initial `reset_batch`), so it is modelled as `ℕ`:
`initAgent` below is the state `__init__` leaves behind. -/
structure State where
  batch_size : ℕ
  keep_last_timestep : Bool
  batch_states : List (String × List ℤ)
  batch_internals : List (List ℤ)
  batch_actions : List (String × List ℤ)
  batch_terminal : List Bool
  batch_reward : List ℤ
  batch_count : ℕ

/-- The appends performed at the top of `BatchAgent.observe`: each
`current_*` value is pushed onto the corresponding batch list and
`batch_count` is incremented. -/
def appendObs (a : State) (o : Obs) : State :=
  { a with
    batch_states := a.batch_states.map (fun p => (p.1, p.2 ++ [o.state p.1]))
    batch_internals := List.zipWith (fun l v => l ++ [v]) a.batch_internals o.internal
    batch_actions := a.batch_actions.map (fun p => (p.1, p.2 ++ [o.action p.1]))
    batch_terminal := a.batch_terminal ++ [o.terminal]
    batch_reward := a.batch_reward ++ [o.reward]
    batch_count := a.batch_count + 1 }

/-- `BatchAgent.reset_batch` after initialization (`batch_count` is no
longer `None`): a full reset to empty lists and `batch_count = 0` when
`keep_last_timestep` is unset, otherwise every batch list is replaced by
the one-element list holding its last entry and `batch_count = 1`.
`nInternals` is `len(self.current_internals)`. -/
def reset_batch (a : State) (nInternals : ℕ) : State :=
  if a.keep_last_timestep = false then
    { a with
      batch_states := a.batch_states.map (fun p => (p.1, ([] : List ℤ)))
      batch_internals := List.replicate nInternals []
      batch_actions := a.batch_actions.map (fun p => (p.1, ([] : List ℤ)))
      batch_terminal := []
      batch_reward := []
      batch_count := 0 }
  else
    { a with
      batch_states := a.batch_states.map (fun p => (p.1, [p.2.getLastD 0]))
      batch_internals := (List.range nInternals).map
        (fun i => [(a.batch_internals.getD i []).getLastD 0])
      batch_actions := a.batch_actions.map (fun p => (p.1, [p.2.getLastD 0]))
      batch_terminal := [a.batch_terminal.getLastD false]
      batch_reward := [a.batch_reward.getLastD 0]
      batch_count := 1 }

/-- The initial batch state set up by `BatchAgent.__init__` via the first
`reset_batch` call (`batch_count is None` forces the full-reset branch). -/
def initAgent (batch_size : ℕ) (keep_last_timestep : Bool)
    (stateNames actionNames : List String) (nInternals : ℕ) : State where
  batch_size := batch_size
  keep_last_timestep := keep_last_timestep
  batch_states := stateNames.map (fun n => (n, []))
  batch_internals := List.replicate nInternals []
  batch_actions := actionNames.map (fun n => (n, []))
  batch_terminal := []
  batch_reward := []
  batch_count := 0

/-- `BatchAgent.observe`: append the current observation, then update the
model and reset the batch exactly when the incremented `batch_count`
equals `batch_size`.  The boolean records whether `model.update` ran. -/
def observe (a : State) (o : Obs) : State × Bool :=
  let a1 := appendObs a o
  if a1.batch_count = a1.batch_size then
    (reset_batch a1 o.internal.length, true)
  else
    (a1, false)

theorem appendObs_batch_size (a : State) (o : Obs) :
    (appendObs a o).batch_size = a.batch_size := rfl

theorem appendObs_keep_last (a : State) (o : Obs) :
    (appendObs a o).keep_last_timestep = a.keep_last_timestep := rfl

/-- C4: in every `BatchAgent.observe` call (hence along every sequence of
such calls) a model update is triggered exactly when the batch count,
after collecting the new observation, reaches `batch_size`; it is never
triggered while the count is below `batch_size`; and immediately after an
update the batch is reset (the post-state is `reset_batch` of the
appended state), while without an update the state is just the appended
state. -/
theorem batch_agent_update_trigger (a : State) (o : Obs) :
    ((observe a o).2 = true ↔ (appendObs a o).batch_count = a.batch_size) ∧
    ((appendObs a o).batch_count < a.batch_size → (observe a o).2 = false) ∧
    ((observe a o).2 = true →
      (observe a o).1 = reset_batch (appendObs a o) o.internal.length) ∧
    ((observe a o).2 = false → (observe a o).1 = appendObs a o) := by
  by_cases h : (appendObs a o).batch_count = a.batch_size
  · refine ⟨by simp [observe, appendObs_batch_size, h], fun hlt => absurd h (by omega), ?_, ?_⟩
    · intro _
      simp [observe, appendObs_batch_size, h]
    · intro hfalse
      rw [show (observe a o).2 = true by simp [observe, appendObs_batch_size, h]] at hfalse
      cases hfalse
  · refine ⟨?_, fun _ => by simp [observe, appendObs_batch_size, h], ?_, fun _ => by simp [observe, appendObs_batch_size, h]⟩
    · constructor
      · intro htrue
        rw [show (observe a o).2 = false by simp [observe, appendObs_batch_size, h]] at htrue
        cases htrue
      · intro heq
        exact absurd heq h
    · intro htrue
      rw [show (observe a o).2 = false by simp [observe, appendObs_batch_size, h]] at htrue
      cases htrue

/-- A concrete one-observation agent for the C4 witness. -/
def baDemo : State :=
  { batch_size := 1, keep_last_timestep := true, batch_states := [("s", [])],
    batch_internals := [[]], batch_actions := [("a", [])],
    batch_terminal := [], batch_reward := [], batch_count := 0 }

/-- A concrete observation for the C4/C10 witnesses. -/
def baObs : Obs :=
  { state := fun _ => 4, internal := [6], action := fun _ => 5,
    terminal := true, reward := 7 }

/-- Witness for C4: on `baDemo` (batch_size 1, count 0) the observation
triggers the update and the post-state is the reset of the appended
state. -/
theorem batch_agent_update_trigger_witness :
    (observe baDemo baObs).1 = reset_batch (appendObs baDemo baObs) baObs.internal.length :=
  (batch_agent_update_trigger baDemo baObs).2.2.1 rfl

/-- C10: immediately after a model update inside `BatchAgent.observe`, the
new batch state is: with `keep_last_timestep` set, every batch list holds
exactly the final timestep of the just-processed batch (the observation
that triggered the update) and `batch_count = 1`; otherwise all batch
lists are empty and `batch_count = 0`.  `hlen` states that the agent keeps
one internals list per current internal value, as established by
`reset_batch` itself. -/
theorem batch_agent_post_update_state
    (a : State) (o : Obs) (h : (observe a o).2 = true)
    (hlen : a.batch_internals.length = o.internal.length) :
    ((observe a o).1.batch_count = if a.keep_last_timestep then 1 else 0) ∧
    (a.keep_last_timestep = true →
      (observe a o).1.batch_reward = [o.reward] ∧
      (observe a o).1.batch_terminal = [o.terminal] ∧
      (∀ (i : ℕ) (p : String × List ℤ), a.batch_states[i]? = some p →
        (observe a o).1.batch_states[i]? = some (p.1, [o.state p.1])) ∧
      (∀ (i : ℕ) (p : String × List ℤ), a.batch_actions[i]? = some p →
        (observe a o).1.batch_actions[i]? = some (p.1, [o.action p.1])) ∧
      (∀ n : ℕ, n < o.internal.length →
        (observe a o).1.batch_internals[n]? = some [o.internal.getD n 0])) ∧
    (a.keep_last_timestep = false →
      (observe a o).1.batch_reward = [] ∧
      (observe a o).1.batch_terminal = [] ∧
      (∀ (i : ℕ) (p : String × List ℤ), a.batch_states[i]? = some p →
        (observe a o).1.batch_states[i]? = some (p.1, [])) ∧
      (∀ (i : ℕ) (p : String × List ℤ), a.batch_actions[i]? = some p →
        (observe a o).1.batch_actions[i]? = some (p.1, [])) ∧
      (observe a o).1.batch_internals = List.replicate o.internal.length []) := by
  have hif : (appendObs a o).batch_count = (appendObs a o).batch_size := by
    by_contra hc
    rw [show (observe a o).2 = false by simp [observe, hc]] at h
    cases h
  have heq : (observe a o).1 = reset_batch (appendObs a o) o.internal.length := by
    simp [observe, hif]
  rw [heq]
  cases hkl : a.keep_last_timestep with
  | false =>
    refine ⟨?_, ?_, ?_⟩
    · simp [reset_batch, appendObs, hkl]
    · intro hx
      simp at hx
    · intro _
      refine ⟨?_, ?_, ?_, ?_, ?_⟩
      · simp [reset_batch, appendObs, hkl]
      · simp [reset_batch, appendObs, hkl]
      · intro i p hp
        simp [reset_batch, appendObs, hkl, List.getElem?_map, hp]
      · intro i p hp
        simp [reset_batch, appendObs, hkl, List.getElem?_map, hp]
      · simp [reset_batch, appendObs, hkl]
  | true =>
    refine ⟨?_, ?_, ?_⟩
    · simp [reset_batch, appendObs, hkl]
    · intro _
      refine ⟨?_, ?_, ?_, ?_, ?_⟩
      · simp [reset_batch, appendObs, hkl]
      · simp [reset_batch, appendObs, hkl]
      · intro i p hp
        simp [reset_batch, appendObs, hkl, List.getElem?_map, hp]
      · intro i p hp
        simp [reset_batch, appendObs, hkl, List.getElem?_map, hp]
      · intro n hn
        have hn' : n < a.batch_internals.length := by omega
        obtain ⟨l, hl⟩ : ∃ l, a.batch_internals[n]? = some l :=
          ⟨a.batch_internals[n], List.getElem?_eq_getElem hn'⟩
        obtain ⟨v, hv⟩ : ∃ v, o.internal[n]? = some v :=
          ⟨o.internal.get ⟨n, hn⟩, List.getElem?_eq_getElem hn⟩
        have hzip : (List.zipWith (fun l v => l ++ [v]) a.batch_internals o.internal)[n]?
            = some (l ++ [v]) := by
          simp [List.getElem?_zipWith, hl, hv]
        have hgetD : o.internal.getD n 0 = v := by
          rw [List.getD_eq_getElem?_getD, hv]
          rfl
        simp only [reset_batch, appendObs, hkl]
        rw [if_neg (by simp)]
        simp only [List.getElem?_map, List.getElem?_range hn, Option.map_some']
        rw [List.getD_eq_getElem?_getD, hzip]
        simp [hgetD, hv]
    · intro hx
      simp at hx

/-- Witness for C10 on `baDemo`/`baObs` (keep_last_timestep set): after the
triggered update the batch reward list holds exactly the final reward. -/
theorem batch_agent_post_update_state_witness :
    (observe baDemo baObs).1.batch_reward = [baObs.reward] :=
  ((batch_agent_post_update_state baDemo baObs rfl rfl).2.1 rfl).1

end BatchAgent

/-! ## `MemoryAgent` (tensorforce/agents/memory_agent.py) -/

namespace MemoryAgent

/-- The configuration fields of `MemoryAgent.__init__` that drive the
update schedule: `update_steps = int(round(1 / update_rate))` and
`target_update_steps = int(round(1 / target_network_update_rate))`. -/
structure Config where
  min_replay_size : ℕ
  update_repeat : ℕ
  update_steps : ℕ
  use_target_network : Bool
  target_update_steps : ℕ

/-- Mutable agent state: only `step_count` changes across
`add_observation` calls (the memory contents do not affect the schedule). -/
structure State where
  cfg : Config
  step_count : ℕ

/-- `MemoryAgent.__init__` sets `step_count = 0`. -/
def initAgent (cfg : Config) : State :=
  { cfg := cfg, step_count := 0 }

/-- `MemoryAgent.add_observation`: increments `step_count`, then performs
`update_repeat` sampled-batch model updates when
`step_count >= min_replay_size and step_count % update_steps == 0`, and a
target-network update when additionally `use_target_network` holds and
`step_count % target_update_steps == 0`.  Returns the new state, the
number of `model.update` calls made, and whether
`model.update_target_network` ran. -/
def add_observation (s : State) : State × ℕ × Bool :=
  let step := s.step_count + 1
  let updates :=
    if s.cfg.min_replay_size ≤ step ∧ step % s.cfg.update_steps = 0
    then s.cfg.update_repeat else 0
  let target := decide (s.cfg.min_replay_size ≤ step) &&
    s.cfg.use_target_network && decide (step % s.cfg.target_update_steps = 0)
  ({ s with step_count := step }, updates, target)

/-- `n` consecutive `add_observation` calls starting from `__init__`. -/
def runAgent (cfg : Config) : ℕ → State
  | 0 => initAgent cfg
  | n + 1 => (add_observation (runAgent cfg n)).1

theorem cfg_runAgent (cfg : Config) (n : ℕ) :
    (runAgent cfg n).cfg = cfg := by
  induction n with
  | zero => rfl
  | succ n ih => simp [runAgent, add_observation, ih]

theorem step_count_runAgent (cfg : Config) (n : ℕ) :
    (runAgent cfg n).step_count = n := by
  induction n with
  | zero => rfl
  | succ n ih => simp [runAgent, add_observation, ih]

/-- C7: along every sequence of `MemoryAgent.add_observation` calls, the
`n+1`-st call performs exactly `update_repeat` sampled-batch model updates
when the post-increment `step_count = n+1` is at least `min_replay_size`
and a multiple of `update_steps`, and none otherwise; and it updates the
target network exactly when `use_target_network` is set, `step_count`
is at least `min_replay_size` and a multiple of `target_update_steps`. -/
theorem memory_agent_update_schedule (cfg : Config) (n : ℕ) :
    (runAgent cfg n).step_count = n ∧
    ((add_observation (runAgent cfg n)).2.1 =
      if cfg.min_replay_size ≤ n + 1 ∧ (n + 1) % cfg.update_steps = 0
      then cfg.update_repeat else 0) ∧
    ((add_observation (runAgent cfg n)).2.2 = true ↔
      (cfg.min_replay_size ≤ n + 1 ∧ cfg.use_target_network = true ∧
        (n + 1) % cfg.target_update_steps = 0)) := by
  refine ⟨step_count_runAgent cfg n, ?_, ?_⟩
  · simp [add_observation, step_count_runAgent, cfg_runAgent]
  · simp [add_observation, step_count_runAgent, cfg_runAgent, Bool.and_eq_true,
      decide_eq_true_eq, and_assoc]

/-- Witness for C7 with `min_replay_size = 2`, `update_repeat = 3`,
`update_steps = 2`, target updates every 4 steps: the fourth call
(step_count 4 ≥ 2, divisible by 2) performs 3 updates. -/
theorem memory_agent_update_schedule_witness :
    (add_observation (runAgent ⟨2, 3, 2, true, 4⟩ 3)).2.1
      = if 2 ≤ 3 + 1 ∧ (3 + 1) % 2 = 0 then 3 else 0 :=
  (memory_agent_update_schedule ⟨2, 3, 2, true, 4⟩ 3).2.1

end MemoryAgent

/-! ## `PrioritizedReplay` (tensorforce/core/memories/prioritized_replay.py)

The TF graph functions are embedded as state transformers over the
variables created by `tf_initialize`.  `include_next_states` is `False`
throughout (the claims do not touch the next-state branch of
`tf_retrieve_indices`). -/

namespace PrioritizedReplay

/-- python/TF slice `arr[start:stop]` for `0 ≤ start ≤ stop`. -/
def pySlice {α : Type} (arr : List α) (start stop : ℕ) : List α :=
  (arr.drop start).take (stop - start)

/-- `tf.gather(params, indices)` for a rank-1 index tensor, in-bounds
indices; `d` is only returned for out-of-range indices. -/
def gather {α : Type} (d : α) (arr : List α) (idxs : List ℕ) : List α :=
  idxs.map (fun i => arr.getD i d)

/-- `tf.assign(ref[start:start+len(vals)], vals)`: overwrite the
contiguous range starting at `start` with `vals`. -/
def sliceAssign {α : Type} (arr : List α) (start : ℕ) (vals : List α) : List α :=
  arr.take start ++ vals ++ arr.drop (start + vals.length)

/-- Dict access `d[name]` on an association list of named arrays. -/
def alookup (l : List (String × List ℤ)) (n : String) : List ℤ :=
  (List.lookup n l).getD []

/-- The variables created by `PrioritizedReplay.tf_initialize`, plus the
constructor configuration.  The TF `int32` index variables only ever hold
small non-negative values, so they are modelled as `ℕ`; priorities and
losses are `float` tensors modelled as `ℚ`. -/
structure State where
  capacity : ℕ
  buffer_size : ℕ
  prioritization_weight : ℕ
  states_memory : List (String × List ℤ)
  internals_memory : List (String × List ℤ)
  actions_memory : List (String × List ℤ)
  terminal_memory : List Bool
  reward_memory : List ℤ
  memory_index : ℕ
  priorities : List ℚ
  buffer_index : ℕ
  states_buffer : List (String × List ℤ)
  internals_buffer : List (String × List ℤ)
  actions_buffer : List (String × List ℤ)
  terminal_buffer : List Bool
  reward_buffer : List ℤ
  batch_indices : List ℕ
  last_batch_buffer_elems : ℕ

/-- `PrioritizedReplay.tf_store`: writes the new instances to the buffer
slice `[buffer_index : buffer_index + num_instances]` (no modular
arithmetic is applied to the range) and increments `buffer_index` by
`num_instances = tf.shape(terminal)[0]`. -/
def tf_store (st : State) (statesIn internalsIn actionsIn : String → List ℤ)
    (terminalIn : List Bool) (rewardIn : List ℤ) : State :=
  let num_instances := terminalIn.length
  { st with
    states_buffer := st.states_buffer.map
      (fun p => (p.1, sliceAssign p.2 st.buffer_index (statesIn p.1)))
    internals_buffer := st.internals_buffer.map
      (fun p => (p.1, sliceAssign p.2 st.buffer_index (internalsIn p.1)))
    actions_buffer := st.actions_buffer.map
      (fun p => (p.1, sliceAssign p.2 st.buffer_index (actionsIn p.1)))
    terminal_buffer := sliceAssign st.terminal_buffer st.buffer_index terminalIn
    reward_buffer := sliceAssign st.reward_buffer st.buffer_index rewardIn
    buffer_index := st.buffer_index + num_instances }

/-- The guard of the `tf.while_loop` in `tf_retrieve_timesteps`:
`tf.reduce_all(sample <= 0.0)`. -/
def samplingCond (sample : List ℚ) : Bool :=
  sample.all (fun s => decide (s ≤ 0))

/-- The body of the sampling `tf.while_loop`: subtract the normalized
priority at the current index from each sample, then advance each index
for which the updated sample is still positive. -/
def samplingBody (priorities : List ℚ) (sumPriorities : ℚ)
    (idx : List ℕ) (sample : List ℚ) : List ℕ × List ℚ :=
  let priority := idx.map (fun i => priorities.getD i 0)
  let sample' := List.zipWith (fun s p => s - p / sumPriorities) sample priority
  let idx' := List.zipWith (fun i s => i + (if 0 < s then 1 else 0)) idx sample'
  (idx', sample')

/-- `tf.while_loop(cond, body, (indices, sample))` with explicit fuel: the
guard is evaluated before every iteration, exactly as TF does. -/
def samplingLoop (priorities : List ℚ) (sumPriorities : ℚ) :
    ℕ → List ℕ × List ℚ → List ℕ × List ℚ
  | 0, st => st
  | fuel + 1, st =>
    if samplingCond st.2
    then samplingLoop priorities sumPriorities fuel
      (samplingBody priorities sumPriorities st.1 st.2)
    else st

/-- The index-selection part of `PrioritizedReplay.tf_retrieve_timesteps`:
`num_buffer_elems = min(buffer_index, n)` entries come from the buffer, the
remaining `n - num_buffer_elems` indices are produced by the sampling loop
(started at all-zero indices) and then masked by the terminal flags of
priority memory.  `sample` is the `tf.random_uniform` draw. -/
def tf_retrieve_timesteps_selection (st : State) (n : ℕ) (sample : List ℚ)
    (fuel : ℕ) : ℕ × List ℕ :=
  let num_buffer_elems := min st.buffer_index n
  let num_priority_elements := n - num_buffer_elems
  let priority_indices :=
    if 0 < num_priority_elements then
      (samplingLoop st.priorities st.priorities.sum fuel
        (List.replicate num_priority_elements 0, sample)).1
    else List.replicate num_priority_elements 0
  let priority_terminal := priority_indices.map
    (fun i => st.terminal_memory.getD i false)
  let masked := (List.zip priority_indices priority_terminal).filterMap
    (fun p => if p.2 then none else some p.1)
  (num_buffer_elems, masked)

/-- The dict of tensors returned by `tf_retrieve_indices` (with
`include_next_states = False`). -/
structure Batch where
  states : List (String × List ℤ)
  internals : List (String × List ℤ)
  actions : List (String × List ℤ)
  terminal : List Bool
  reward : List ℤ

/-- `PrioritizedReplay.tf_retrieve_indices`: concatenation of the buffer
slice `[buffer_index - buffer_elements : buffer_index]` with the
`tf.gather` of main memory at `priority_indices`, per field. -/
def tf_retrieve_indices (st : State) (buffer_elements : ℕ)
    (priority_indices : List ℕ) : Batch :=
  let buffer_start := st.buffer_index - buffer_elements
  let buffer_end := st.buffer_index
  { states := st.states_memory.map (fun p =>
      (p.1, pySlice (alookup st.states_buffer p.1) buffer_start buffer_end
        ++ gather 0 p.2 priority_indices))
    internals := st.internals_memory.map (fun p =>
      (p.1, pySlice (alookup st.internals_buffer p.1) buffer_start buffer_end
        ++ gather 0 p.2 priority_indices))
    actions := st.actions_memory.map (fun p =>
      (p.1, pySlice (alookup st.actions_buffer p.1) buffer_start buffer_end
        ++ gather 0 p.2 priority_indices))
    terminal := pySlice st.terminal_buffer buffer_start buffer_end
      ++ gather false st.terminal_memory priority_indices
    reward := pySlice st.reward_buffer buffer_start buffer_end
      ++ gather 0 st.reward_memory priority_indices }

/-- `tf.where(batch_indices != 0)`: the positions of the nonzero entries. -/
def whereNonzero (l : List ℕ) : List ℕ :=
  (List.range l.length).filter (fun i => l.getD i 0 != 0)

/-- `PrioritizedReplay.tf_update_batch`: reconstruct the last batch from
the buffer (`last_batch_buffer_elems` entries) and priority memory
(`batch_indices`), write the batch fields to the range `[0 :
last_batch_buffer_elems]` of the destination variables — `states`,
`actions`, `terminal` and `reward` go to main memory, but the batch
`internals` are assigned to `internals_buffer` — assign the new
priorities `loss_per_instance ** prioritization_weight`, and decrement
`buffer_index` by `last_batch_buffer_elems`. -/
def tf_update_batch (st : State) (loss_per_instance : List ℚ) : State :=
  let priority_indices := whereNonzero st.batch_indices
  let batch := tf_retrieve_indices st st.last_batch_buffer_elems priority_indices
  let start_index := 0
  let priorities := loss_per_instance.map (fun l => l ^ st.prioritization_weight)
  { st with
    states_memory := st.states_memory.map
      (fun p => (p.1, sliceAssign p.2 start_index (alookup batch.states p.1)))
    internals_buffer := st.internals_buffer.map
      (fun p => (p.1, sliceAssign p.2 start_index (alookup batch.internals p.1)))
    terminal_memory := sliceAssign st.terminal_memory start_index batch.terminal
    reward_memory := sliceAssign st.reward_memory start_index batch.reward
    priorities := sliceAssign st.priorities start_index priorities
    actions_memory := st.actions_memory.map
      (fun p => (p.1, sliceAssign p.2 start_index (alookup batch.actions p.1)))
    buffer_index := st.buffer_index - st.last_batch_buffer_elems }

theorem sliceAssign_length {α : Type} (arr : List α) (start : ℕ) (vals : List α)
    (h : start + vals.length ≤ arr.length) :
    (sliceAssign arr start vals).length = arr.length := by
  simp [sliceAssign]
  omega

theorem sliceAssign_lt {α : Type} (arr : List α) (start : ℕ) (vals : List α) {j : ℕ}
    (hj : j < start) (hle : start ≤ arr.length) :
    (sliceAssign arr start vals)[j]? = arr[j]? := by
  have hlen : (arr.take start).length = start := by
    simp [List.length_take]
    omega
  have hlen2 : (arr.take start ++ vals).length = start + vals.length := by
    simp [List.length_take]
    omega
  rw [sliceAssign, List.getElem?_append, hlen2, if_pos (by omega),
    List.getElem?_append, hlen, if_pos hj, List.getElem?_take]
  simp [hj]

theorem sliceAssign_mid {α : Type} (arr : List α) (start : ℕ) (vals : List α) {j : ℕ}
    (h1 : start ≤ j) (h2 : j < start + vals.length) (hle : start ≤ arr.length) :
    (sliceAssign arr start vals)[j]? = vals[j - start]? := by
  have hlen : (arr.take start).length = start := by
    simp [List.length_take]
    omega
  have hlen2 : (arr.take start ++ vals).length = start + vals.length := by
    simp [List.length_take]
    omega
  rw [sliceAssign, List.getElem?_append, hlen2, if_pos (by omega),
    List.getElem?_append, hlen, if_neg (by omega)]

theorem sliceAssign_ge {α : Type} (arr : List α) (start : ℕ) (vals : List α) {j : ℕ}
    (hge : start + vals.length ≤ j) (hle : start ≤ arr.length) :
    (sliceAssign arr start vals)[j]? = arr[j]? := by
  have hlen2 : (arr.take start ++ vals).length = start + vals.length := by
    simp [List.length_take]
    omega
  rw [sliceAssign, List.getElem?_append, hlen2, if_neg (by omega),
    List.getElem?_drop]
  congr 1
  omega

/-- C6 (amended): `tf_store` writes the incoming instances to the
contiguous buffer range `[buffer_index, buffer_index + num_instances)`
without any wraparound, leaves all other buffer slots unchanged, and
increments `buffer_index` by `num_instances`; provided the range fits
(`buffer_index + num_instances ≤ buffer_size`), every write is in bounds,
the buffer keeps its fixed length and the new `buffer_index` is at most
`buffer_size`. -/
theorem prioritized_tf_store_in_bounds
    (st : State) (statesIn internalsIn actionsIn : String → List ℤ)
    (terminalIn : List Bool) (rewardIn : List ℤ)
    (hn : st.buffer_index + terminalIn.length ≤ st.buffer_size)
    (hrw : rewardIn.length = terminalIn.length)
    (hrbuf : st.reward_buffer.length = st.buffer_size)
    (htbuf : st.terminal_buffer.length = st.buffer_size) :
    (tf_store st statesIn internalsIn actionsIn terminalIn rewardIn).buffer_index
      = st.buffer_index + terminalIn.length ∧
    (tf_store st statesIn internalsIn actionsIn terminalIn rewardIn).buffer_index
      ≤ st.buffer_size ∧
    (tf_store st statesIn internalsIn actionsIn terminalIn rewardIn).reward_buffer.length
      = st.buffer_size ∧
    (tf_store st statesIn internalsIn actionsIn terminalIn rewardIn).terminal_buffer.length
      = st.buffer_size ∧
    (∀ j, j < st.buffer_index →
      (tf_store st statesIn internalsIn actionsIn terminalIn rewardIn).reward_buffer[j]?
        = st.reward_buffer[j]? ∧
      (tf_store st statesIn internalsIn actionsIn terminalIn rewardIn).terminal_buffer[j]?
        = st.terminal_buffer[j]?) ∧
    (∀ j, st.buffer_index ≤ j → j < st.buffer_index + terminalIn.length →
      (tf_store st statesIn internalsIn actionsIn terminalIn rewardIn).reward_buffer[j]?
        = rewardIn[j - st.buffer_index]? ∧
      (tf_store st statesIn internalsIn actionsIn terminalIn rewardIn).terminal_buffer[j]?
        = terminalIn[j - st.buffer_index]?) ∧
    (∀ j, st.buffer_index + terminalIn.length ≤ j →
      (tf_store st statesIn internalsIn actionsIn terminalIn rewardIn).reward_buffer[j]?
        = st.reward_buffer[j]? ∧
      (tf_store st statesIn internalsIn actionsIn terminalIn rewardIn).terminal_buffer[j]?
        = st.terminal_buffer[j]?) := by
  simp only [tf_store]
  refine ⟨trivial, by omega, ?_, ?_, ?_, ?_, ?_⟩
  · rw [sliceAssign_length _ _ _ (by omega)]
    exact hrbuf
  · rw [sliceAssign_length _ _ _ (by omega)]
    exact htbuf
  · intro j hj
    exact ⟨sliceAssign_lt _ _ _ hj (by omega), sliceAssign_lt _ _ _ hj (by omega)⟩
  · intro j h1 h2
    exact ⟨sliceAssign_mid _ _ _ h1 (by omega) (by omega),
      sliceAssign_mid _ _ _ h1 (by omega) (by omega)⟩
  · intro j hj
    exact ⟨sliceAssign_ge _ _ _ (by omega) (by omega),
      sliceAssign_ge _ _ _ (by omega) (by omega)⟩

/-- A two-slot `PrioritizedReplay` after one instance has been stored
(`buffer_index = 1`): used to exercise `tf_store` at the end of the
buffer. -/
def storeDemo : State :=
  { capacity := 2, buffer_size := 2, prioritization_weight := 1,
    states_memory := [], internals_memory := [], actions_memory := [],
    terminal_memory := [false, true], reward_memory := [0, 0], memory_index := 0,
    priorities := [0, 0], buffer_index := 1,
    states_buffer := [], internals_buffer := [], actions_buffer := [],
    terminal_buffer := [false, true], reward_buffer := [0, 0],
    batch_indices := [0, 0], last_batch_buffer_elems := 0 }

/-- `storeDemo` with an empty buffer (`buffer_index = 0`). -/
def storeDemo0 : State :=
  { storeDemo with buffer_index := 0 }

/-- Counterexample to C6 as frozen: storing two instances into `storeDemo`
(`buffer_size = 2`, `buffer_index = 1`) leaves `buffer_index = 3`: the index
does not wrap around modulo the buffer size (`(1 + 2) % 2 = 1`) and is not a
valid in-bounds index afterwards. -/
theorem prioritized_tf_store_in_bounds_cex :
    (tf_store storeDemo (fun _ => []) (fun _ => []) (fun _ => [])
      [false, false] [3, 4]).buffer_index = 3 ∧
    ¬ ((tf_store storeDemo (fun _ => []) (fun _ => []) (fun _ => [])
      [false, false] [3, 4]).buffer_index < storeDemo.buffer_size) ∧
    (tf_store storeDemo (fun _ => []) (fun _ => []) (fun _ => [])
      [false, false] [3, 4]).buffer_index
      ≠ (storeDemo.buffer_index + 2) % storeDemo.buffer_size := by
  refine ⟨rfl, by decide, by decide⟩

/-- Witness for the amended C6: storing two instances into the empty
`storeDemo0` keeps the buffer index within the buffer size. -/
theorem prioritized_tf_store_in_bounds_witness :
    (tf_store storeDemo0 (fun _ => []) (fun _ => []) (fun _ => [])
      [false, false] [3, 4]).buffer_index ≤ storeDemo0.buffer_size :=
  (prioritized_tf_store_in_bounds storeDemo0 (fun _ => []) (fun _ => [])
    (fun _ => []) [false, false] [3, 4] (by decide) rfl rfl rfl).2.1

/-- A `PrioritizedReplay` with recorded priorities `[1, 3]` and an empty
buffer, so that a single-timestep retrieval must sample from priority
memory. -/
def samplingDemo : State :=
  { capacity := 2, buffer_size := 2, prioritization_weight := 1,
    states_memory := [("s", [0, 0])], internals_memory := [("i", [0, 0])],
    actions_memory := [("a", [0, 0])],
    terminal_memory := [false, true], reward_memory := [0, 0], memory_index := 0,
    priorities := [1, 3], buffer_index := 0,
    states_buffer := [("s", [0, 0])], internals_buffer := [("i", [0, 0])],
    actions_buffer := [("a", [0, 0])],
    terminal_buffer := [false, true], reward_buffer := [0, 0],
    batch_indices := [0, 0], last_batch_buffer_elems := 0 }

/-- C2 evaluated at its failing input: with priorities `[1, 3]` and uniform
sample `u = 9/10 ∈ (0, 1]`, the loop guard `tf.reduce_all(sample <= 0.0)` is
false at entry, so the `tf.while_loop` body never runs — for every fuel the
selection returns index 0 — although the cumulative normalized priority at
index 0 is `1/4 < 9/10` (so index 0 does not reach `u`) while index 1 does
reach it.  The claimed smallest index is therefore 1, not 0. -/
theorem prioritized_sampling_selects_index_zero (fuel : ℕ) :
    tf_retrieve_timesteps_selection samplingDemo 1 [9/10] fuel = (0, [0]) ∧
    samplingDemo.priorities.getD 0 0 / samplingDemo.priorities.sum < 9/10 ∧
    9/10 ≤ (samplingDemo.priorities.getD 0 0 + samplingDemo.priorities.getD 1 0)
      / samplingDemo.priorities.sum := by
  refine ⟨?_, by norm_num [samplingDemo], by norm_num [samplingDemo]⟩
  cases fuel with
  | zero =>
    norm_num [tf_retrieve_timesteps_selection, samplingLoop, samplingDemo,
      List.filterMap_cons]
  | succ f =>
    norm_num [tf_retrieve_timesteps_selection, samplingLoop, samplingCond,
      samplingDemo, List.filterMap_cons]

/-- A `PrioritizedReplay` whose buffer holds one instance (state 5,
internal 7, action 9, reward 3, non-terminal) that the last retrieved batch
consumed (`last_batch_buffer_elems = 1`, no priority-memory indices). -/
def updateDemo : State :=
  { capacity := 2, buffer_size := 2, prioritization_weight := 1,
    states_memory := [("s", [0, 0])], internals_memory := [("i", [0, 0])],
    actions_memory := [("a", [0, 0])],
    terminal_memory := [false, true], reward_memory := [0, 0], memory_index := 0,
    priorities := [0, 0], buffer_index := 1,
    states_buffer := [("s", [5, 0])], internals_buffer := [("i", [7, 0])],
    actions_buffer := [("a", [9, 0])],
    terminal_buffer := [false, true], reward_buffer := [3, 0],
    batch_indices := [0, 0], last_batch_buffer_elems := 1 }

/-- C3 evaluated at its failing input: `tf_update_batch` on `updateDemo`
with `loss_per_instance = [2]` promotes the buffered state, action,
terminal and reward into main memory, assigns priority
`loss ** prioritization_weight = 2` and decrements `buffer_index` by
`last_batch_buffer_elems = 1` — but the batch internals (value 7) are
written back into `internals_buffer` and `internals_memory` is left
unchanged, contrary to the claim (and to the function's docstring). -/
theorem prioritized_update_batch_internals_not_promoted :
    (tf_update_batch updateDemo [2]).states_memory = [("s", [5, 0])] ∧
    (tf_update_batch updateDemo [2]).actions_memory = [("a", [9, 0])] ∧
    (tf_update_batch updateDemo [2]).reward_memory = [3, 0] ∧
    (tf_update_batch updateDemo [2]).terminal_memory = [false, true] ∧
    (tf_update_batch updateDemo [2]).priorities = [2, 0] ∧
    (tf_update_batch updateDemo [2]).buffer_index = 0 ∧
    (tf_update_batch updateDemo [2]).internals_memory = [("i", [0, 0])] ∧
    (tf_update_batch updateDemo [2]).internals_buffer = [("i", [7, 0])] := by
  refine ⟨by decide, by decide, by decide, by decide, ?_, by decide, by decide,
    by decide⟩
  norm_num [tf_update_batch, tf_retrieve_indices, whereNonzero, alookup, pySlice,
    gather, sliceAssign, updateDemo]

end PrioritizedReplay

end Tensorforce
